import Mathlib

/-!
Verification of the mysql-easy query compiler and transaction state machine.

The development shallowly embeds `lib/mysql-easy.js`: JavaScript values that
can appear in query descriptors become the inductive type `JsVal`; the pure
SQL-compilation helpers (`getWhere`, `getFields`, `getTable`, `getJoin`,
`getSetValues`, `formatValue`, `getGroup`, `getOrder`) and the statement
assemblers (`select`, `insert`, `update`, `deleteFrom`) become Lean functions
producing the SQL text the library would hand to the driver; fallible code
returns `Except String`.  The external mysql driver's escaping primitives
(`mysql.escapeId`, `mysql.escape`) are modelled by executable functions
following the driver's documented conventions (identifier quoting with
backticks per dot-separated segment, literal quoting for strings/numbers).
The `Transaction` class becomes an explicit event-driven state machine.
-/

/-! ## JavaScript value model

Mutual inductives (instead of nesting `List` inside the value type) so that
all recursions below are structural and computations reduce in the kernel.
`JsFields` keeps object-entry insertion order, matching `for (… in …)`
iteration order for string keys in V8.  `none : Option JsVal` stands for
JavaScript `undefined` where a value may be absent; `JsVal.vNull` is `null`.
-/

mutual

inductive JsVal where
  | vNull
  | vInt (n : Int)
  | vStr (s : String)
  | vDate (t : Int)
  | vArr (elems : JsList)
  | vObj (fields : JsFields)
deriving DecidableEq, Repr

inductive JsList where
  | nil
  | cons (head : JsVal) (tail : JsList)
deriving DecidableEq, Repr

inductive JsFields where
  | fnil
  | fcons (key : String) (value : JsVal) (tail : JsFields)
deriving DecidableEq, Repr

end

/-- Property lookup on an object's own fields (first matching key). -/
def JsFields.lookup (k : String) : JsFields → Option JsVal
  | .fnil => none
  | .fcons key v rest => if key = k then some v else JsFields.lookup k rest

/-- JavaScript truthiness of a value. -/
def jsTruthy : JsVal → Bool
  | .vNull => false
  | .vInt n => n != 0
  | .vStr s => s != ""
  | _ => true

/-- Truthiness of a possibly-`undefined` value. -/
def optTruthy : Option JsVal → Bool
  | none => false
  | some v => jsTruthy v

/-- Truthiness of a JS value that is either `null` or a string
(`null` and `""` are falsy). -/
def optStrTruthy : Option String → Bool
  | none => false
  | some s => s != ""

/-- `v != null` (loose inequality, excludes both `null` and `undefined`). -/
def nonNull : Option JsVal → Bool
  | none => false
  | some .vNull => false
  | some _ => true

/-- `typeof v === 'number'` for values in our model. -/
def isNumOpt : Option JsVal → Bool
  | some (.vInt _) => true
  | _ => false

/-- Property access `v[k]` yielding `undefined` on non-objects
(the `$`-prefixed keys looked up by the library never collide with array
indices or other built-ins). -/
def propOf (v : JsVal) (k : String) : Option JsVal :=
  match v with
  | .vObj fs => fs.lookup k
  | _ => none

/-- Property access that also requires the property value to be truthy,
mirroring `if (v.k)` guards in the source. -/
def truthyProp (k : String) (v : JsVal) : Option JsVal :=
  match propOf v k with
  | some w => if jsTruthy w then some w else none
  | none => none

/-! ## Driver escaping primitives (modelled external collaborators)

`mysql.escapeId` quotes each dot-separated segment of an identifier in
backticks, doubling interior backticks.  `mysql.escape` renders a literal:
strings quoted with `'` and interior quotes/backslashes escaped, numbers in
decimal, `null` as `NULL`, dates as a quoted literal, arrays as a
comma-separated list (nested arrays parenthesized), plain objects as
`key = value` assignments.  These are out-of-scope collaborators per the
spec; the models below follow those conventions with executable char-level
functions.
-/

/-- Decimal digit character. -/
def digitCh (d : Nat) : Char := Char.ofNat (48 + d)

/-- Decimal rendering of a natural number (fuel-structural so it reduces). -/
def natCharsAux : Nat → Nat → List Char
  | 0, _ => []
  | fuel + 1, n =>
    if n < 10 then [digitCh n]
    else natCharsAux fuel (n / 10) ++ [digitCh (n % 10)]

/-- Decimal digits of a natural number. -/
def natChars (n : Nat) : List Char := natCharsAux (n + 1) n

/-- Decimal rendering of an integer. -/
def intChars : Int → List Char
  | .ofNat n => natChars n
  | .negSucc n => '-' :: natChars (n + 1)

/-- Decimal string of an integer (JS number-to-string for integral values). -/
def intStr (n : Int) : String := ⟨intChars n⟩

/-- Double every backtick in an identifier segment. -/
def doubleBackticks : List Char → List Char
  | [] => []
  | c :: cs =>
    if c = '`' then '`' :: '`' :: doubleBackticks cs
    else c :: doubleBackticks cs

/-- Split a character list on `'.'`. -/
def splitDotsAux : List Char → List Char → List (List Char)
  | [], acc => [acc.reverse]
  | c :: cs, acc =>
    if c = '.' then acc.reverse :: splitDotsAux cs []
    else splitDotsAux cs (c :: acc)

/-- JS `Array.prototype.join(sep)` over already-rendered strings. -/
def joinStr (sep : String) : List String → String
  | [] => ""
  | [x] => x
  | x :: y :: xs => x ++ sep ++ joinStr sep (y :: xs)

/-- Model of `mysql.escapeId`: backtick-quote each dot-separated segment. -/
def escapeId (s : String) : String :=
  joinStr "." ((splitDotsAux s.data []).map
    (fun seg => "`" ++ (⟨doubleBackticks seg⟩ : String) ++ "`"))

/-- Escape quotes and backslashes inside a string literal. -/
def escapeChars : List Char → List Char
  | [] => []
  | c :: cs =>
    if c = '\'' then '\\' :: '\'' :: escapeChars cs
    else if c = '\\' then '\\' :: '\\' :: escapeChars cs
    else c :: escapeChars cs

mutual

/-- Model of `mysql.escape`: render a value as a driver-safe SQL literal. -/
def escVal : JsVal → String
  | .vNull => "NULL"
  | .vInt n => intStr n
  | .vStr s => "'" ++ (⟨escapeChars s.data⟩ : String) ++ "'"
  | .vDate t => "'" ++ intStr t ++ "'"
  | .vArr xs => escList xs
  | .vObj fs => escObj fs

/-- Array literal: elements comma-joined. -/
def escList : JsList → String
  | .nil => ""
  | .cons v .nil => escElem v
  | .cons v (.cons w vs) => escElem v ++ ", " ++ escList (.cons w vs)

/-- Array element: nested arrays are parenthesized. -/
def escElem : JsVal → String
  | .vArr xs => "(" ++ escList xs ++ ")"
  | .vNull => "NULL"
  | .vInt n => intStr n
  | .vStr s => "'" ++ (⟨escapeChars s.data⟩ : String) ++ "'"
  | .vDate t => "'" ++ intStr t ++ "'"
  | .vObj fs => escObj fs

/-- Plain object: `key = value` assignments comma-joined. -/
def escObj : JsFields → String
  | .fnil => ""
  | .fcons k v .fnil => escapeId k ++ " = " ++ escVal v
  | .fcons k v (.fcons k' v' fs) =>
    escapeId k ++ " = " ++ escVal v ++ ", " ++ escObj (.fcons k' v' fs)

end

mutual

/-- JS `String(v)` conversion for values interpolated into templates. -/
def jsToString : JsVal → String
  | .vNull => "null"
  | .vInt n => intStr n
  | .vStr s => s
  | .vDate t => "[Date " ++ intStr t ++ "]"
  | .vArr xs => jsListToString xs
  | .vObj _ => "[object Object]"

/-- JS `Array.prototype.toString`: comma-joined, `null` elements empty. -/
def jsListToString : JsList → String
  | .nil => ""
  | .cons .vNull .nil => ""
  | .cons v .nil => jsToString v
  | .cons .vNull (.cons w vs) => "," ++ jsListToString (.cons w vs)
  | .cons v (.cons w vs) => jsToString v ++ "," ++ jsListToString (.cons w vs)

end

/-- Source helper `iden`: identifier escaping (stringifies non-strings
first, as the driver does). -/
def iden (v : JsVal) : String := escapeId (jsToString v)

/-- Source helper `val`: literal escaping via the driver. -/
def val (v : JsVal) : String := escVal v

/-- Stringification of a possibly-`undefined` value (template semantics). -/
def optValStr : Option JsVal → String
  | none => "undefined"
  | some v => jsToString v

/-- `formatValue(data, isIdenPriority)` from the source: resolves the
`$raw` / `$val` / `$field` value directives, falling back to literal (or
identifier when `isIdenPriority`) escaping. -/
def formatValue (data : JsVal) (isIdenPriority : Bool) : String :=
  match truthyProp "$raw" data with
  | some r => jsToString r
  | none =>
    match truthyProp "$val" data with
    | some v => escVal v
    | none =>
      match truthyProp "$field" data with
      | some f => escapeId (jsToString f)
      | none => if isIdenPriority then iden data else val data

/-! ## The where-expression compiler `getWhere`

`getWhere(where, isRequired, isJoinOn)` (source lines 639-741).  The
recursion through `$or`/`$and` operand arrays is implemented with an
explicit fuel parameter (structural, so it computes in the kernel); the
public wrapper `getWhere` supplies `jsSize` of the value, which is proved
sufficient below (`getWhereFuel_eq`).
-/

def whereNullErr : String := "Parameter \"where\" must be not null"

def opsErrMsg : String :=
  "Where object has not contains any of $like,$eq,$gt,$gte,$lt,$lte,$in,$is,$isNot"

/-- The SQL fragments pushed for a single field entry whose comparison is
an operator set: the nine `!== undefined` checks of the source in their
source order, with the `$eq: null` special case. -/
def opFragsList (ef : String) (data : JsVal) : List String :=
  (match propOf data "$like" with
     | some v => [ef ++ " LIKE " ++ formatValue v false] | none => []) ++
    (match propOf data "$eq" with
     | some .vNull => [ef ++ " IS NULL"]
     | some v => [ef ++ " = " ++ formatValue v false] | none => []) ++
    (match propOf data "$gt" with
     | some v => [ef ++ " > " ++ formatValue v false] | none => []) ++
    (match propOf data "$gte" with
     | some v => [ef ++ " >= " ++ formatValue v false] | none => []) ++
    (match propOf data "$lt" with
     | some v => [ef ++ " < " ++ formatValue v false] | none => []) ++
    (match propOf data "$lte" with
     | some v => [ef ++ " <= " ++ formatValue v false] | none => []) ++
    (match propOf data "$in" with
     | some v => [ef ++ " IN (" ++ formatValue v false ++ ")"] | none => []) ++
    (match propOf data "$is" with
     | some v => [ef ++ " IS " ++ formatValue v false] | none => []) ++
    (match propOf data "$isNot" with
     | some v => [ef ++ " IS NOT " ++ formatValue v false] | none => [])

/-- Resolve an operator-set comparison: the fragments above, or the
`whereCount === sqlWheres.length` validation error when no recognized tag
produced a fragment. -/
def opFrags (ef : String) (data : JsVal) : Except String (List String) :=
  if opFragsList ef data = [] then .error opsErrMsg
  else .ok (opFragsList ef data)

/-- Fragments contributed by one `field: comparison` entry of a where
mapping: `null` → `IS NULL` (rejected in join-on mode), object (non-Date)
→ `$field` directive or operator set, scalar → equality (identifier
comparison in join-on mode). -/
def fieldFrags (fieldName : String) (data : JsVal) (isJoinOn : Bool) :
    Except String (List String) :=
  let ef := escapeId fieldName
  match data with
  | .vNull =>
    if isJoinOn then .error "Bad join on option" else .ok [ef ++ " IS NULL"]
  | .vObj _ =>
    (match propOf data "$field" with
     | some _ => .ok [ef ++ " = " ++ formatValue data false]
     | none => opFrags ef data)
  | .vArr _ => opFrags ef data
  | _ => .ok [ef ++ " = " ++ (if isJoinOn then iden data else val data)]

/-- The per-entry loop of `getWhere` over an object's fields. -/
def whereFields : JsFields → Bool → Except String (List String)
  | .fnil, _ => .ok []
  | .fcons fieldName data rest, isJoinOn => do
    let frags ← fieldFrags fieldName data isJoinOn
    let more ← whereFields rest isJoinOn
    pure (frags ++ more)

/-- `for (… in …)` over an array visits index keys in order. -/
def indexFields (i : Nat) : JsList → JsFields
  | .nil => .fnil
  | .cons v vs => .fcons (intStr i) v (indexFields (i + 1) vs)

mutual

/-- `getWhere` body, fuel-indexed.  Matches the source: `null` handling,
raw strings verbatim, `$or`/`$and` combinators (checked in that order,
returning immediately and ignoring all other entries), then the per-field
loop; non-string non-object input is invalid.  `Date` objects have
`typeof … === 'object'` but no own enumerable fields, and arrays are
iterated by index keys. -/
def getWhereFuel : Nat → JsVal → Bool → Bool → Except String (Option String)
  | 0, _, _, _ => .error "out of fuel"
  | _ + 1, .vNull, isRequired, _ =>
    if isRequired then .error whereNullErr else .ok none
  | _ + 1, .vStr s, _, _ => .ok (some s)
  | fuel + 1, .vObj fs, _, isJoinOn =>
    (match fs.lookup "$or" with
     | some (.vArr conds) => do
       let parts ← getWhereListFuel fuel conds isJoinOn
       pure (some ("(" ++ joinStr " OR " parts ++ ")"))
     | some _ => .error "TypeError: where.$or.map is not a function"
     | none =>
       match fs.lookup "$and" with
       | some (.vArr conds) => do
         let parts ← getWhereListFuel fuel conds isJoinOn
         pure (some ("(" ++ joinStr " AND " parts ++ ")"))
       | some _ => .error "TypeError: where.$and.map is not a function"
       | none => do
         let frags ← whereFields fs isJoinOn
         pure (some (joinStr " AND " frags)))
  | _ + 1, .vArr xs, _, isJoinOn => do
    let frags ← whereFields (indexFields 0 xs) isJoinOn
    pure (some (joinStr " AND " frags))
  | _ + 1, .vDate _, _, _ => .ok (some "")
  | _ + 1, .vInt _, _, _ => .error "Invalid arguments"

/-- `where.$or.map(cond => getWhere(cond, true, isJoinOn))`. -/
def getWhereListFuel : Nat → JsList → Bool → Except String (List String)
  | 0, _, _ => .error "out of fuel"
  | _ + 1, .nil, _ => .ok []
  | fuel + 1, .cons c cs, isJoinOn => do
    let s ← getWhereFuel fuel c true isJoinOn
    let rest ← getWhereListFuel fuel cs isJoinOn
    pure ((match s with | some str => str | none => "null") :: rest)

end

mutual

/-- Node count of a value; used as fuel for `getWhere`. -/
def jsSize : JsVal → Nat
  | .vObj fs => jsFieldsSize fs + 1
  | .vArr xs => jsListSize xs + 1
  | _ => 1

def jsListSize : JsList → Nat
  | .nil => 1
  | .cons v vs => jsSize v + jsListSize vs + 1

def jsFieldsSize : JsFields → Nat
  | .fnil => 1
  | .fcons _ v fs => jsSize v + jsFieldsSize fs + 1

end

/-- `getWhere(where, isRequired, isJoinOn)`: `undefined`/`null` input is an
error when required and compiles to no predicate otherwise; any other value
is compiled with sufficient fuel. -/
def getWhere (w : Option JsVal) (isRequired isJoinOn : Bool) :
    Except String (Option String) :=
  match w with
  | none => if isRequired then .error whereNullErr else .ok none
  | some v => getWhereFuel (jsSize v) v isRequired isJoinOn

/-! ## Remaining fragment compilers and statement assemblers -/

/-- `getTable`: a one-entry alias mapping renders `physical AS alias`
(only the first own property is used); other objects with no usable entry
yield JS `undefined` (stringified into the query); non-objects are
identifier-escaped. -/
def getTable : JsVal → String
  | .vObj (.fcons k v _) => escapeId (jsToString v) ++ " AS " ++ escapeId k
  | .vObj .fnil => "undefined"
  | .vArr (.cons x _) => escapeId (jsToString x) ++ " AS " ++ escapeId "0"
  | .vArr .nil => "undefined"
  | .vDate _ => "undefined"
  | .vNull => "undefined"
  | v => iden v

/-- `join.table` may be absent; `getTable(undefined)` stringifies. -/
def getTableOpt : Option JsVal → String
  | none => escapeId "undefined"
  | some v => getTable v

/-- Map a rendering function over a JS array. -/
def jsListMapStr (f : JsVal → String) : JsList → List String
  | .nil => []
  | .cons v vs => f v :: jsListMapStr f vs

/-- The aggregation-tag dispatch of `getFields`: `$count`, `$avg`, `$min`,
`$max`, `$sum` checked in source order with `!== undefined`. -/
def aggOf (value : JsVal) : Option (String × JsVal) :=
  match propOf value "$count" with
  | some f => some ("COUNT", f)
  | none =>
    match propOf value "$avg" with
    | some f => some ("AVG", f)
    | none =>
      match propOf value "$min" with
      | some f => some ("MIN", f)
      | none =>
        match propOf value "$max" with
        | some f => some ("MAX", f)
        | none =>
          match propOf value "$sum" with
          | some f => some ("SUM", f)
          | none => none

/-- The alias-mapping loop of `getFields`: each entry renders
`column AS alias` or `OP(operand) AS alias`. -/
def fieldsObj : JsFields → Except String (List String)
  | .fnil => .ok []
  | .fcons fieldName value rest => do
    let frag ←
      match value with
      | .vNull => Except.error "TypeError: Cannot read properties of null"
      | .vObj _ | .vArr _ | .vDate _ =>
        (match aggOf value with
         | some (op, f) =>
           Except.ok (op ++ "(" ++ formatValue f true ++ ") AS " ++ escapeId fieldName)
         | none => Except.error "Bad field description")
      | v => Except.ok (iden v ++ " AS " ++ escapeId fieldName)
    let more ← fieldsObj rest
    pure (frag :: more)

/-- `getFields`: explicit `null` rejected, omitted defaults to `*`, raw
strings verbatim, arrays identifier-escaped and comma-joined, alias
mappings via `fieldsObj`. -/
def getFields : Option JsVal → Except String String
  | some .vNull => .error "Parameter \"fields\" must be not null"
  | none => .ok "*"
  | some (.vStr s) => .ok s
  | some (.vArr xs) => .ok (joinStr "," (jsListMapStr iden xs))
  | some (.vObj fs) => (fieldsObj fs).map (joinStr ",")
  | some (.vDate _) => .ok ""
  | some (.vInt _) => .error "Invalid arguments"

/-- `getGroup`: raw string verbatim, array identifier-escaped; any other
shape has no `.map` method. -/
def getGroup : JsVal → Except String String
  | .vStr s => .ok s
  | .vArr xs => .ok (joinStr "," (jsListMapStr iden xs))
  | _ => .error "TypeError: group.map is not a function"

/-- `order[prop] < 0` (only numbers compare below zero in our model). -/
def jsLtZero : JsVal → Bool
  | .vInt n => n < 0
  | _ => false

/-- The mapping loop of `getOrder`: negative magnitude means `DESC`. -/
def orderFields : JsFields → List String
  | .fnil => []
  | .fcons k v rest =>
    (escapeId k ++ (if jsLtZero v then " DESC" else "")) :: orderFields rest

/-- `getOrder`: raw string verbatim, otherwise a `for (… in …)` walk. -/
def getOrder : JsVal → String
  | .vStr s => s
  | .vObj fs => joinStr ", " (orderFields fs)
  | .vArr xs => joinStr ", " (orderFields (indexFields 0 xs))
  | _ => ""

/-- `getJoin`: raw strings verbatim; structured joins require a truthy
`on`, optionally prefix a join type, and compile `on` in the restricted
join mode of `getWhere`. -/
def getJoin (join : JsVal) : Except String String :=
  match join with
  | .vStr s => .ok s
  | .vNull => .error "TypeError: Cannot read properties of null"
  | _ =>
    match propOf join "on" with
    | none => .error "Join has not field \"on\""
    | some onVal =>
      if jsTruthy onVal = false then .error "Join has not field \"on\""
      else
        let typePrefix :=
          match propOf join "type" with
          | some (.vStr "left") => "LEFT "
          | some (.vStr "right") => "RIGHT "
          | some (.vStr "FULL") => "FULL "
          | _ => ""
        (getWhere (some onVal) true true).map fun onSql =>
          typePrefix ++ "JOIN " ++ getTableOpt (propOf join "table") ++ " ON " ++
            (match onSql with | some s => s | none => "null")

/-- Monadic map over a JS array. -/
def jsListMapM (f : JsVal → Except String String) : JsList → Except String (List String)
  | .nil => .ok []
  | .cons v vs => do
    let x ← f v
    let xs ← jsListMapM f vs
    pure (x :: xs)

/-- `getJoins`: array of joins space-joined in order, else a single join. -/
def getJoins : JsVal → Except String String
  | .vArr xs => (jsListMapM getJoin xs).map (joinStr " ")
  | v => getJoin v

/-- `POINT(x,y)` interpolation for the `$point` directive. -/
def pointStr : JsVal → String
  | .vArr (.cons a rest) =>
    "POINT(" ++ jsToString a ++ "," ++
      (match rest with | .cons b _ => jsToString b | .nil => "undefined") ++ ")"
  | .vArr .nil => "POINT(undefined,undefined)"
  | p => "POINT(" ++ optValStr (propOf p "x") ++ "," ++ optValStr (propOf p "y") ++ ")"

/-- One assignment value of `getSetValues`: truthy values may carry `$raw`,
`$point` or (update only) `$field` directives; everything else is
literal-escaped. -/
def setValue (value : JsVal) (isUpdate : Bool) : String :=
  if jsTruthy value then
    match truthyProp "$raw" value with
    | some r => jsToString r
    | none =>
      match truthyProp "$point" value with
      | some p => pointStr p
      | none =>
        match truthyProp "$field" value with
        | some f => if isUpdate then escapeId (jsToString f) else val value
        | none => val value
  else val value

/-- The assignment loop of `getSetValues`. -/
def setFields : JsFields → Bool → List String
  | .fnil, _ => []
  | .fcons k v rest, isUpdate =>
    (escapeId k ++ "=" ++ setValue v isUpdate) :: setFields rest isUpdate

/-- `getSetValues(data, isUpdate)`: comma-joined `col=value` assignments. -/
def getSetValues (data : JsFields) (isUpdate : Bool) : String :=
  joinStr "," (setFields data isUpdate)

def tableMissingMsg : String := "Parameter \"table\" missing"

/-- The fixed clause sequence of `[_select]` before the LIMIT handling:
SELECT [DISTINCT] fields FROM table [join] [WHERE …] [GROUP BY …]
[ORDER BY …], each optional clause pushed only when its compiled text is
truthy. -/
def basePartsOf (tableV : JsVal) (isDistinct : Bool) (sqlFields : String)
    (sqlJoin sqlWhere sqlGroup sqlOrder : Option String) : List String :=
  ["SELECT" ++ (if isDistinct then " DISTINCT" else ""), sqlFields, "FROM",
    getTable tableV]
  ++ (if optStrTruthy sqlJoin then [match sqlJoin with | some s => s | none => ""] else [])
  ++ (if optStrTruthy sqlWhere then ["WHERE", match sqlWhere with | some s => s | none => ""] else [])
  ++ (if optStrTruthy sqlGroup then ["GROUP BY", match sqlGroup with | some s => s | none => ""] else [])
  ++ (if optStrTruthy sqlOrder then ["ORDER BY", match sqlOrder with | some s => s | none => ""] else [])

/-- `if (x) { y = f(x); }`: compile an optional fragment only when the
descriptor value is truthy. -/
def optCompile (v : Option JsVal) (f : JsVal → Except String String) :
    Except String (Option String) :=
  match v with
  | some x => if jsTruthy x then (f x).map some else .ok none
  | none => .ok none

/-- `[_select]` (source lines 184-240) up to the final `join(' ')`: the
parameter checks, fragment compilation, clause assembly, and the
truthiness-based LIMIT/offset handling
(`queryParts.push('LIMIT', offset ? offset + ',' + limit : limit)` /
`throw … offset without limit`). -/
def selectCore (table fields join whereV group order limit offset distinct :
    Option JsVal) : Except String (List String) :=
  match table with
  | none => .error tableMissingMsg
  | some tv =>
    if jsTruthy tv = false then .error tableMissingMsg
    else if nonNull offset && !isNumOpt offset then
      .error "Parameter \"offset\" must be a number"
    else if nonNull limit && !isNumOpt limit then
      .error "Parameter \"limit\" must be a number"
    else do
      let sqlFields ← getFields fields
      let sqlWhere ← getWhere whereV false false
      let sqlGroup ← optCompile group getGroup
      let sqlOrder ← optCompile order (fun v => .ok (getOrder v))
      let sqlJoin ← optCompile join getJoins
      let base := basePartsOf tv (optTruthy distinct) sqlFields sqlJoin
        sqlWhere sqlGroup sqlOrder
      if optTruthy limit then
        .ok (base ++ ["LIMIT",
          if optTruthy offset then optValStr offset ++ "," ++ optValStr limit
          else optValStr limit])
      else if optTruthy offset then .error "Can't set offset without limit"
      else .ok base

/-- The SQL text produced by `select` for a descriptor. -/
def selectSql (table fields join whereV group order limit offset distinct :
    Option JsVal) : Except String String :=
  (selectCore table fields join whereV group order limit offset distinct).map
    (joinStr " ")

/-- The SQL text produced by `insert` (after `mysql.format` substitutes the
table placeholder). -/
def insertSql (tableName : String) (objectData : JsFields) (ignoreFlag : Bool) :
    String :=
  "INSERT" ++ (if ignoreFlag then " IGNORE" else "") ++ " INTO " ++
    escapeId tableName ++ " SET " ++ getSetValues objectData false

/-- The SQL text produced by `update` (after placeholder substitution). -/
def updateSql (tableName : String) (objectData : JsFields) (w : Option JsVal)
    (ignoreFlag : Bool) : Except String String :=
  (getWhere w false false).map fun sqlWhere =>
    "UPDATE" ++ (if ignoreFlag then " IGNORE" else "") ++ " " ++
      escapeId tableName ++ " SET " ++ getSetValues objectData true ++
      (if optStrTruthy sqlWhere then
        " WHERE " ++ (match sqlWhere with | some s => s | none => "")
      else "")

/-- The SQL text produced by `delete`/`deleteFrom`: the where descriptor is
compiled in required mode and concatenated after `WHERE`. -/
def deleteFromSql (tableName : String) (w : Option JsVal) :
    Except String String :=
  (getWhere w true false).map fun sqlWhere =>
    "DELETE FROM " ++ escapeId tableName ++ " WHERE " ++
      (match sqlWhere with | some s => s | none => "null")

/-! ## Transaction state machine

`Transaction` (source lines 412-477).  `commit()` synchronously nulls
`this._conn` and sets `status = 'committing'` before issuing
`conn.commit(cb)`; the commit callback either releases (success) or issues
`conn.rollback(cb2)` whose callback releases or destroys.  `rollback()`
likewise nulls `_conn` and sets `status = 'rejected'` before issuing
`conn.rollback`.  We model this with explicit events: method invocations
(`callCommit`, `callRollback`) and driver-callback completions
(`commitDone`, `rollbackAfterCommitDone`, `rollbackDone`), so that every
interleaving of calls and callbacks is a sequence of events.  A completion
event whose pending operation is not outstanding is a no-op.  Driver
errors are numbered; `TxObs` records the promise settlement an event
produces (`none_` when the event settles no promise).
-/

inductive TxStatus where
  | pending
  | committing
  | committed
  | rejected
deriving DecidableEq, Repr

/-- The driver operation whose callback is still outstanding. -/
inductive PendingOp where
  | idle
  | commitOp
  | commitRollbackOp
  | rollbackOp
deriving DecidableEq, Repr

structure TxState where
  conn : Bool
  status : TxStatus
  pending : PendingOp
  released : Nat
  destroyed : Nat
deriving DecidableEq, Repr

/-- Fresh transaction: owns its connection, status `pending`. -/
def initTx : TxState :=
  { conn := true, status := .pending, pending := .idle,
    released := 0, destroyed := 0 }

inductive TxEvent where
  | callCommit
  | callRollback
  | commitDone (err : Option Nat)
  | rollbackAfterCommitDone (err : Option Nat)
  | rollbackDone (err : Option Nat)
deriving DecidableEq, Repr

/-- Promise settlement observed when an event runs. -/
inductive TxObs where
  | resolved
  | rejectedWith (e : Nat)
  | stateError
  | none_
deriving DecidableEq, Repr

/-- One event of the transaction state machine. -/
def txStep (s : TxState) : TxEvent → TxState × TxObs
  | .callCommit =>
    if s.conn then
      ({ s with conn := false, status := .committing, pending := .commitOp },
        .none_)
    else if s.status = .rejected then (s, .stateError)
    else (s, .resolved)
  | .callRollback =>
    if s.conn then
      ({ s with conn := false, status := .rejected, pending := .rollbackOp },
        .none_)
    else (s, .resolved)
  | .commitDone err =>
    if s.pending = .commitOp then
      match err with
      | none => ({ s with pending := .idle, status := .committed, released := s.released + 1 }, .resolved)
      | some e => ({ s with pending := .commitRollbackOp, status := .rejected }, .rejectedWith e)
    else (s, .none_)
  | .rollbackAfterCommitDone err =>
    if s.pending = .commitRollbackOp then
      match err with
      | none => ({ s with pending := .idle, released := s.released + 1 }, .none_)
      | some _ => ({ s with pending := .idle, destroyed := s.destroyed + 1 }, .none_)
    else (s, .none_)
  | .rollbackDone err =>
    if s.pending = .rollbackOp then
      match err with
      | none => ({ s with pending := .idle, released := s.released + 1 }, .resolved)
      | some _ => ({ s with pending := .idle, destroyed := s.destroyed + 1 }, .resolved)
    else (s, .none_)

/-- Run a sequence of events from a state. -/
def txRunFrom (s : TxState) : List TxEvent → TxState
  | [] => s
  | e :: es => txRunFrom (txStep s e).1 es

/-- Run a sequence of events on a fresh transaction. -/
def txRun (events : List TxEvent) : TxState := txRunFrom initTx events

/-- State invariant: the connection is held by exactly one of
{the handle, an outstanding driver callback, the release/destroy total},
and the handle holds it exactly while the status is still `pending`;
an outstanding post-commit state is consistent with the status. -/
def txInv (s : TxState) : Prop :=
  s.released + s.destroyed + (if s.conn then 1 else 0) +
    (if s.pending = .idle then 0 else 1) = 1
  ∧ (s.conn = true ↔ s.status = .pending)
  ∧ (s.pending = .commitOp → s.status = .committing)
  ∧ (s.pending = .commitRollbackOp → s.status = .rejected)
  ∧ (s.pending = .rollbackOp → s.status = .rejected)

theorem txInv_init : txInv initTx := by
  simp [txInv, initTx]

theorem txInv_step (s : TxState) (e : TxEvent) (h : txInv s) :
    txInv (txStep s e).1 := by
  obtain ⟨conn, status, pending, released, destroyed⟩ := s
  obtain ⟨h1, h2, h3, h4, h5⟩ := h
  cases e <;>
    cases conn <;>
      cases status <;>
        cases pending <;>
          first
            | (simp_all [txStep, txInv]; done)
            | (simp_all [txStep, txInv]; omega)
            | (rename_i err
               cases err <;> simp_all [txStep, txInv])

theorem txInv_runFrom (s : TxState) (events : List TxEvent) (h : txInv s) :
    txInv (txRunFrom s events) := by
  induction events generalizing s with
  | nil => exact h
  | cons e es ih => exact ih _ (txInv_step s e h)

/-- Every reachable transaction state satisfies the invariant. -/
theorem txInv_run (events : List TxEvent) : txInv (txRun events) :=
  txInv_runFrom _ _ txInv_init

/-- **C3**: for every interleaving of `commit()`/`rollback()` calls and
driver callbacks, the connection is released or destroyed at most once and
never both; once the handle has given up the connection and no driver
callback is outstanding, it has been freed exactly once; and along the
three commit scenarios the connection is released on successful commit,
released on failed-commit-then-successful-rollback, and destroyed on
failed-commit-then-failed-rollback.  No later event can free it a second
time (the bound holds for every event sequence). -/
theorem tx_connection_freed_exactly_once :
    (∀ events : List TxEvent,
      (txRun events).released + (txRun events).destroyed ≤ 1)
    ∧ (∀ events : List TxEvent,
      (txRun events).conn = false → (txRun events).pending = .idle →
        (txRun events).released + (txRun events).destroyed = 1)
    ∧ (∀ e e2 : Nat,
      txRun [.callCommit, .commitDone none] = ⟨false, .committed, .idle, 1, 0⟩
      ∧ txRun [.callCommit, .commitDone (some e), .rollbackAfterCommitDone none]
          = ⟨false, .rejected, .idle, 1, 0⟩
      ∧ txRun [.callCommit, .commitDone (some e), .rollbackAfterCommitDone (some e2)]
          = ⟨false, .rejected, .idle, 0, 1⟩) := by
  refine ⟨?_, ?_, ?_⟩
  · intro events
    have h := (txInv_run events).1
    by_cases hc : (txRun events).conn <;>
      by_cases hp : (txRun events).pending = .idle <;>
        simp [hc, hp] at h <;> omega
  · intro events hc hp
    have h := (txInv_run events).1
    simp [hc, hp] at h
    omega
  · intro e e2
    exact ⟨rfl, rfl, rfl⟩

theorem tx_connection_freed_exactly_once_witness :
    (txRun [TxEvent.callCommit, TxEvent.commitDone none]).conn = false
    ∧ (txRun [TxEvent.callCommit, TxEvent.commitDone none]).pending = PendingOp.idle
    ∧ (txRun [TxEvent.callCommit, TxEvent.commitDone none]).released +
        (txRun [TxEvent.callCommit, TxEvent.commitDone none]).destroyed = 1 :=
  ⟨by decide, by decide,
    tx_connection_freed_exactly_once.2.1
      [TxEvent.callCommit, TxEvent.commitDone none] (by decide) (by decide)⟩

/-- **C4**: in every reachable state whose status is `rejected`, a
`commit()` call fails with the transaction-state error (`'Already
rejected'`) and changes nothing; in every reachable state whose status is
`committed`, a repeated `commit()` resolves immediately and changes
nothing (in particular it issues no operation to the connection: the
resulting state is identical, with no new pending driver operation). -/
theorem tx_terminal_commit_states :
    (∀ events : List TxEvent, (txRun events).status = .rejected →
      txStep (txRun events) .callCommit = (txRun events, .stateError))
    ∧ (∀ events : List TxEvent, (txRun events).status = .committed →
      txStep (txRun events) .callCommit = (txRun events, .resolved)) := by
  constructor
  · intro events hst
    have h2 := (txInv_run events).2.1
    have hconn : (txRun events).conn = false := by
      by_contra hcb
      simp at hcb
      rw [h2, hst] at hcb
      cases hcb
    simp [txStep, hconn, hst]
  · intro events hst
    have h2 := (txInv_run events).2.1
    have hconn : (txRun events).conn = false := by
      by_contra hcb
      simp at hcb
      rw [h2, hst] at hcb
      cases hcb
    simp [txStep, hconn, hst]

theorem tx_terminal_commit_states_witness :
    txStep (txRun [TxEvent.callRollback]) TxEvent.callCommit
        = (txRun [TxEvent.callRollback], TxObs.stateError)
    ∧ txStep (txRun [TxEvent.callCommit, TxEvent.commitDone none]) TxEvent.callCommit
        = (txRun [TxEvent.callCommit, TxEvent.commitDone none], TxObs.resolved) :=
  ⟨tx_terminal_commit_states.1 [TxEvent.callRollback] (by decide),
    tx_terminal_commit_states.2 [TxEvent.callCommit, TxEvent.commitDone none]
      (by decide)⟩

/-- **C5**: every reachable state with status `pending` is the initial
state (connection held, nothing freed).  From it, a `commit()` whose
driver commit fails with error `e` leaves the rollback outstanding on the
same (sole) connection, moves the status to `rejected`, and rejects the
caller's promise with the original commit error `e`; the rollback
completion then releases the connection on success and destroys it on
failure, and settles no promise at all — so the rollback error `e2` is
never surfaced to the caller. -/
theorem tx_commit_failure_path :
    ∀ (events : List TxEvent) (e e2 : Nat),
      (txRun events).status = .pending →
      txRun events = initTx
      ∧ txStep (txStep initTx .callCommit).1 (.commitDone (some e))
          = (⟨false, .rejected, .commitRollbackOp, 0, 0⟩, .rejectedWith e)
      ∧ txStep ⟨false, .rejected, .commitRollbackOp, 0, 0⟩
          (.rollbackAfterCommitDone none)
          = (⟨false, .rejected, .idle, 1, 0⟩, .none_)
      ∧ txStep ⟨false, .rejected, .commitRollbackOp, 0, 0⟩
          (.rollbackAfterCommitDone (some e2))
          = (⟨false, .rejected, .idle, 0, 1⟩, .none_) := by
  intro events e e2 hst
  obtain ⟨h1, h2, _, _, _⟩ := txInv_run events
  have hconn : (txRun events).conn = true := h2.mpr hst
  simp [hconn] at h1
  have hidle : (txRun events).pending = .idle := by
    by_contra hp
    simp [hp] at h1
  refine ⟨?_, rfl, rfl, rfl⟩
  have : (txRun events).released = 0 ∧ (txRun events).destroyed = 0 := by
    simp [hidle] at h1; omega
  obtain ⟨hr, hd⟩ := this
  cases hrun : txRun events
  simp_all [initTx]

theorem tx_commit_failure_path_witness :
    txRun [] = initTx
    ∧ txStep (txStep initTx .callCommit).1 (.commitDone (some 7))
        = (⟨false, .rejected, .commitRollbackOp, 0, 0⟩, .rejectedWith 7)
    ∧ txStep ⟨false, .rejected, .commitRollbackOp, 0, 0⟩
        (.rollbackAfterCommitDone none)
        = (⟨false, .rejected, .idle, 1, 0⟩, .none_)
    ∧ txStep ⟨false, .rejected, .commitRollbackOp, 0, 0⟩
        (.rollbackAfterCommitDone (some 9))
        = (⟨false, .rejected, .idle, 0, 1⟩, .none_) :=
  tx_commit_failure_path [] 7 9 (by decide)

/-! ## Claims C1 and C2 (offset/limit and required where) -/

/-- **C1 counterexample**: `delete('myTableName', {})` with an empty where
mapping does *not* raise a validation error: `getWhere({}, true)` only
rejects `null`/`undefined`, the empty mapping compiles to the empty
predicate, and a `DELETE` statement with an empty `WHERE` clause is
produced and dispatched. -/
theorem deleteFrom_empty_where_counterexample :
    deleteFromSql "myTableName" (some (.vObj .fnil))
      = .ok "DELETE FROM `myTableName` WHERE " := rfl

/-- **C1 (amended)**: `delete`/`deleteFrom` raises the validation error
only when the where descriptor is `null` or `undefined`; an empty mapping
is accepted and yields a `DELETE … WHERE ` statement with an empty
predicate. -/
theorem deleteFrom_where_required :
    (∀ t : String, deleteFromSql t none = .error whereNullErr)
    ∧ (∀ t : String, deleteFromSql t (some .vNull) = .error whereNullErr)
    ∧ (∀ t : String, deleteFromSql t (some (.vObj .fnil))
        = .ok ("DELETE FROM " ++ escapeId t ++ " WHERE ")) := by
  refine ⟨fun t => rfl, fun t => rfl, fun t => ?_⟩
  show Except.ok ("DELETE FROM " ++ escapeId t ++ " WHERE " ++ "") = _
  simp

/-- **C2 counterexample**: a descriptor with `offset: 0` (present and
non-null) and no `limit` does *not* fail: `else if (offset)` tests JS
truthiness, and `0` is falsy, so compilation succeeds without a LIMIT
clause. -/
theorem select_offset_without_limit_counterexample :
    selectSql (some (.vStr "t")) none none none none none none
      (some (.vInt 0)) none = .ok "SELECT * FROM `t`" := rfl

/-! ## Fuel sufficiency for `getWhere` -/

theorem jsSize_pos (v : JsVal) : 1 ≤ jsSize v := by
  cases v <;> simp [jsSize]

theorem jsListSize_pos (l : JsList) : 1 ≤ jsListSize l := by
  cases l <;> simp [jsListSize]

theorem lookup_size_lt (k : String) :
    ∀ (fs : JsFields) (v : JsVal), JsFields.lookup k fs = some v →
      jsSize v < jsFieldsSize fs
  | .fnil, v, h => by cases h
  | .fcons key w rest, v, h => by
    simp only [JsFields.lookup] at h
    by_cases hk : key = k
    · rw [if_pos hk] at h
      cases h
      simp [jsFieldsSize]
      omega
    · rw [if_neg hk] at h
      have := lookup_size_lt k rest v h
      simp [jsFieldsSize]
      omega

/-- Any two sufficient fuels give `getWhereFuel`/`getWhereListFuel` the
same result. -/
theorem getWhereFuel_mono :
    ∀ f : Nat,
      (∀ g v r j, jsSize v ≤ f → jsSize v ≤ g →
        getWhereFuel f v r j = getWhereFuel g v r j)
      ∧ (∀ g l j, jsListSize l ≤ f → jsListSize l ≤ g →
        getWhereListFuel f l j = getWhereListFuel g l j) := by
  intro f
  induction f using Nat.strong_induction_on with
  | _ f ih =>
    constructor
    · intro g v r j hf hg
      have hv := jsSize_pos v
      obtain ⟨f', rfl⟩ : ∃ f', f = f' + 1 := ⟨f - 1, by omega⟩
      obtain ⟨g', rfl⟩ : ∃ g', g = g' + 1 := ⟨g - 1, by omega⟩
      cases v with
      | vNull => rfl
      | vInt n => rfl
      | vStr s => rfl
      | vDate t => rfl
      | vArr xs => rfl
      | vObj fs =>
        cases hor : fs.lookup "$or" with
        | some w =>
          cases w with
          | vArr conds =>
            have hsz := lookup_size_lt "$or" fs _ hor
            simp only [jsSize] at hf hg
            simp only [jsSize, jsListSize] at hsz
            have h1 : jsListSize conds ≤ f' := by omega
            have h2 : jsListSize conds ≤ g' := by omega
            have hlt : f' < f' + 1 := by omega
            simp only [getWhereFuel, hor]
            rw [((ih f' hlt).2 g' conds j h1 h2)]
          | vNull => simp only [getWhereFuel, hor]
          | vInt n => simp only [getWhereFuel, hor]
          | vStr s => simp only [getWhereFuel, hor]
          | vDate t => simp only [getWhereFuel, hor]
          | vObj fs2 => simp only [getWhereFuel, hor]
        | none =>
          cases hand : fs.lookup "$and" with
          | some w =>
            cases w with
            | vArr conds =>
              have hsz := lookup_size_lt "$and" fs _ hand
              simp only [jsSize] at hf hg
              simp only [jsSize, jsListSize] at hsz
              have h1 : jsListSize conds ≤ f' := by omega
              have h2 : jsListSize conds ≤ g' := by omega
              have hlt : f' < f' + 1 := by omega
              simp only [getWhereFuel, hor, hand]
              rw [((ih f' hlt).2 g' conds j h1 h2)]
            | vNull => simp only [getWhereFuel, hor, hand]
            | vInt n => simp only [getWhereFuel, hor, hand]
            | vStr s => simp only [getWhereFuel, hor, hand]
            | vDate t => simp only [getWhereFuel, hor, hand]
            | vObj fs2 => simp only [getWhereFuel, hor, hand]
          | none => simp only [getWhereFuel, hor, hand]
    · intro g l j hf hg
      have hl := jsListSize_pos l
      obtain ⟨f', rfl⟩ : ∃ f', f = f' + 1 := ⟨f - 1, by omega⟩
      obtain ⟨g', rfl⟩ : ∃ g', g = g' + 1 := ⟨g - 1, by omega⟩
      cases l with
      | nil => rfl
      | cons c cs =>
        simp only [getWhereListFuel]
        simp only [jsListSize] at hf hg
        have hc := jsSize_pos c
        have hcs := jsListSize_pos cs
        have hlt : f' < f' + 1 := by omega
        rw [((ih f' hlt).1 g' c true j (by omega) (by omega))]
        rw [((ih f' hlt).2 g' cs j (by omega) (by omega))]

/-- Any sufficient fuel computes `getWhere`. -/
theorem getWhereFuel_eq (f : Nat) (v : JsVal) (r j : Bool)
    (h : jsSize v ≤ f) : getWhereFuel f v r j = getWhere (some v) r j :=
  (getWhereFuel_mono f).1 (jsSize v) v r j h (Nat.le_refl _)

/-- Any sufficient fuel computes the combinator-operand list compilation. -/
theorem getWhereListFuel_eq (f : Nat) (l : JsList) (j : Bool)
    (h : jsListSize l ≤ f) :
    getWhereListFuel f l j = getWhereListFuel (jsListSize l) l j :=
  (getWhereFuel_mono f).2 (jsListSize l) l j h (Nat.le_refl _)

/-! ## Claim C10: `$or`/`$and` take over the whole mapping -/

/-- **C10**: when a where (or join-on) mapping contains the key `$or`, the
compiler returns exactly the compiled combinator expression and silently
ignores every other entry: the result equals that of the mapping containing
only the `$or` entry, with no error for the extras.  Likewise for `$and`
when `$or` is absent.  Both modes (`isRequired`, `isJoinOn`) are covered. -/
theorem getWhere_combinator_overrides :
    (∀ (fs : JsFields) (v : JsVal) (r j : Bool),
      JsFields.lookup "$or" fs = some v →
      getWhere (some (.vObj fs)) r j
        = getWhere (some (.vObj (.fcons "$or" v .fnil))) r j)
    ∧ (∀ (fs : JsFields) (v : JsVal) (r j : Bool),
      JsFields.lookup "$or" fs = none →
      JsFields.lookup "$and" fs = some v →
      getWhere (some (.vObj fs)) r j
        = getWhere (some (.vObj (.fcons "$and" v .fnil))) r j) := by
  constructor
  · intro fs v r j hor
    cases v with
    | vArr conds =>
      have hsz := lookup_size_lt "$or" fs _ hor
      simp only [jsSize, jsListSize] at hsz
      simp [getWhere, getWhereFuel, jsSize, jsFieldsSize, JsFields.lookup, hor]
      rw [getWhereListFuel_eq (jsFieldsSize fs) conds j (by omega),
        getWhereListFuel_eq (jsListSize conds + 3) conds j (by omega)]
    | vNull => simp [getWhere, getWhereFuel, jsSize, jsFieldsSize, JsFields.lookup, hor]
    | vInt n => simp [getWhere, getWhereFuel, jsSize, jsFieldsSize, JsFields.lookup, hor]
    | vStr s => simp [getWhere, getWhereFuel, jsSize, jsFieldsSize, JsFields.lookup, hor]
    | vDate t => simp [getWhere, getWhereFuel, jsSize, jsFieldsSize, JsFields.lookup, hor]
    | vObj fs2 => simp [getWhere, getWhereFuel, jsSize, jsFieldsSize, JsFields.lookup, hor]
  · intro fs v r j hor hand
    cases v with
    | vArr conds =>
      have hsz := lookup_size_lt "$and" fs _ hand
      simp only [jsSize, jsListSize] at hsz
      simp [getWhere, getWhereFuel, jsSize, jsFieldsSize, JsFields.lookup, hor, hand]
      rw [getWhereListFuel_eq (jsFieldsSize fs) conds j (by omega),
        getWhereListFuel_eq (jsListSize conds + 3) conds j (by omega)]
    | vNull => simp [getWhere, getWhereFuel, jsSize, jsFieldsSize, JsFields.lookup, hor, hand]
    | vInt n => simp [getWhere, getWhereFuel, jsSize, jsFieldsSize, JsFields.lookup, hor, hand]
    | vStr s => simp [getWhere, getWhereFuel, jsSize, jsFieldsSize, JsFields.lookup, hor, hand]
    | vDate t => simp [getWhere, getWhereFuel, jsSize, jsFieldsSize, JsFields.lookup, hor, hand]
    | vObj fs2 => simp [getWhere, getWhereFuel, jsSize, jsFieldsSize, JsFields.lookup, hor, hand]

theorem getWhere_combinator_overrides_witness :
    getWhere (some (.vObj (.fcons "otherField" (.vInt 7)
        (.fcons "$or" (.vArr (.cons (.vObj (.fcons "field1" (.vInt 1) .fnil)) .nil)) .fnil))))
        false false
      = getWhere (some (.vObj (.fcons "$or"
          (.vArr (.cons (.vObj (.fcons "field1" (.vInt 1) .fnil)) .nil)) .fnil)))
        false false
    ∧ getWhere (some (.vObj (.fcons "otherField" (.vInt 7)
        (.fcons "$and" (.vArr (.cons (.vObj (.fcons "field1" (.vInt 1) .fnil)) .nil)) .fnil))))
        false false
      = getWhere (some (.vObj (.fcons "$and"
          (.vArr (.cons (.vObj (.fcons "field1" (.vInt 1) .fnil)) .nil)) .fnil)))
        false false :=
  ⟨getWhere_combinator_overrides.1 _ _ false false (by decide),
    getWhere_combinator_overrides.2 _ _ false false (by decide) (by decide)⟩

/-! ## Claim C9: empty where mapping behaves as omitted where -/

/-- **C9**: an empty where mapping `{}` compiles without error to the empty
predicate string, and both `select` and `update` produce SQL byte-identical
to the same descriptor with `where` omitted (the `if (sqlWhere)` truthiness
test drops the empty string exactly as it drops `null`), so no `WHERE`
clause appears. -/
theorem empty_where_same_as_omitted :
    getWhere (some (.vObj .fnil)) false false = .ok (some "")
    ∧ (∀ table fields join group order limit offset distinct : Option JsVal,
      selectSql table fields join (some (.vObj .fnil)) group order limit
          offset distinct
        = selectSql table fields join none group order limit offset distinct)
    ∧ (∀ (t : String) (od : JsFields) (ig : Bool),
      updateSql t od (some (.vObj .fnil)) ig = updateSql t od none ig) := by
  refine ⟨rfl, ?_, fun t od ig => rfl⟩
  intro table fields join group order limit offset distinct
  simp only [selectSql]
  cases table with
  | none => rfl
  | some tv =>
    simp only [selectCore]
    split
    · rfl
    · split
      · rfl
      · split
        · rfl
        · exact congrArg _ (congrArg _ (funext fun sqlFields => rfl))

/-! ## Claims C6 and C7: operator-set resolution -/

/-- The canonical operator order stated by the spec (§4.2). -/
def canonicalOps : List String :=
  ["$like", "$eq", "$gt", "$gte", "$lt", "$lte", "$in", "$is", "$isNot"]

/-- Modelled from the spec (§4.2): the fragment prescribed for one present
operator tag. -/
def opRender (ef tag : String) (v : JsVal) : String :=
  if tag = "$like" then ef ++ " LIKE " ++ formatValue v false
  else if tag = "$eq" then
    (match v with
     | .vNull => ef ++ " IS NULL"
     | _ => ef ++ " = " ++ formatValue v false)
  else if tag = "$gt" then ef ++ " > " ++ formatValue v false
  else if tag = "$gte" then ef ++ " >= " ++ formatValue v false
  else if tag = "$lt" then ef ++ " < " ++ formatValue v false
  else if tag = "$lte" then ef ++ " <= " ++ formatValue v false
  else if tag = "$in" then ef ++ " IN (" ++ formatValue v false ++ ")"
  else if tag = "$is" then ef ++ " IS " ++ formatValue v false
  else ef ++ " IS NOT " ++ formatValue v false

/-- Modelled from the spec (§4.2): one fragment per present operator,
taken in the fixed canonical order. -/
def opFragsSpec (ef : String) (data : JsVal) : List String :=
  canonicalOps.flatMap
    (fun tag => ((propOf data tag).map (opRender ef tag)).toList)

/-- The source's sequential `!== undefined` pushes produce exactly the
spec's canonical-order fragment list. -/
theorem opFragsList_eq_spec (ef : String) (data : JsVal) :
    opFragsList ef data = opFragsSpec ef data := by
  have hlike : (match propOf data "$like" with
      | some v => [ef ++ " LIKE " ++ formatValue v false] | none => [])
      = ((propOf data "$like").map (opRender ef "$like")).toList := by
    cases propOf data "$like" <;> simp [opRender]
  have heq : (match propOf data "$eq" with
      | some .vNull => [ef ++ " IS NULL"]
      | some v => [ef ++ " = " ++ formatValue v false] | none => [])
      = ((propOf data "$eq").map (opRender ef "$eq")).toList := by
    cases hv : propOf data "$eq" with
    | none => simp
    | some v => cases v <;> simp [opRender]
  have hgt : (match propOf data "$gt" with
      | some v => [ef ++ " > " ++ formatValue v false] | none => [])
      = ((propOf data "$gt").map (opRender ef "$gt")).toList := by
    cases propOf data "$gt" <;> simp [opRender]
  have hgte : (match propOf data "$gte" with
      | some v => [ef ++ " >= " ++ formatValue v false] | none => [])
      = ((propOf data "$gte").map (opRender ef "$gte")).toList := by
    cases propOf data "$gte" <;> simp [opRender]
  have hlt : (match propOf data "$lt" with
      | some v => [ef ++ " < " ++ formatValue v false] | none => [])
      = ((propOf data "$lt").map (opRender ef "$lt")).toList := by
    cases propOf data "$lt" <;> simp [opRender]
  have hlte : (match propOf data "$lte" with
      | some v => [ef ++ " <= " ++ formatValue v false] | none => [])
      = ((propOf data "$lte").map (opRender ef "$lte")).toList := by
    cases propOf data "$lte" <;> simp [opRender]
  have hin : (match propOf data "$in" with
      | some v => [ef ++ " IN (" ++ formatValue v false ++ ")"] | none => [])
      = ((propOf data "$in").map (opRender ef "$in")).toList := by
    cases propOf data "$in" <;> simp [opRender]
  have his : (match propOf data "$is" with
      | some v => [ef ++ " IS " ++ formatValue v false] | none => [])
      = ((propOf data "$is").map (opRender ef "$is")).toList := by
    cases propOf data "$is" <;> simp [opRender]
  have hisnot : (match propOf data "$isNot" with
      | some v => [ef ++ " IS NOT " ++ formatValue v false] | none => [])
      = ((propOf data "$isNot").map (opRender ef "$isNot")).toList := by
    cases propOf data "$isNot" <;> simp [opRender]
  simp only [opFragsList, opFragsSpec, canonicalOps, List.flatMap_cons,
    List.flatMap_nil]
  rw [hlike, heq, hgt, hgte, hlt, hlte, hin, his, hisnot]
  simp [List.append_assoc]

/-- `JsFields` built from a Lean association list. -/
def jsFieldsOfList : List (String × JsVal) → JsFields
  | [] => .fnil
  | (k, v) :: rest => .fcons k v (jsFieldsOfList rest)

/-- Association-list lookup matching `JsFields.lookup`. -/
def lookupL (k : String) : List (String × JsVal) → Option JsVal
  | [] => none
  | (key, v) :: rest => if key = k then some v else lookupL k rest

theorem lookup_ofList (k : String) (l : List (String × JsVal)) :
    (jsFieldsOfList l).lookup k = lookupL k l := by
  induction l with
  | nil => rfl
  | cons p rest ih =>
    cases p with
    | mk key v => simp only [jsFieldsOfList, JsFields.lookup, lookupL, ih]

/-- Permuting a duplicate-key-free association list does not change any
lookup. -/
theorem perm_lookupL (k : String) :
    ∀ {l1 l2 : List (String × JsVal)}, l1.Perm l2 →
      (l1.map Prod.fst).Nodup → lookupL k l1 = lookupL k l2 := by
  intro l1 l2 p
  induction p with
  | nil => intro _; rfl
  | cons x p ih =>
    intro nd
    cases x with
    | mk key v =>
      simp only [lookupL]
      by_cases h : key = k
      · simp [h]
      · simp only [if_neg h]
        exact ih (by simp at nd; exact nd.2)
  | swap x y l =>
    intro nd
    cases x with
    | mk kx vx =>
      cases y with
      | mk ky vy =>
        simp only [lookupL]
        by_cases hy : ky = k <;> by_cases hx : kx = k
        · exfalso
          simp at nd
          exact nd.1.1 (by rw [hy, hx])
        · simp [hy, hx]
        · simp [hy, hx]
        · simp [hy, hx]
  | trans p1 p2 ih1 ih2 =>
    intro nd
    have nd2 := ((p1.map Prod.fst).nodup_iff).mp nd
    exact (ih1 nd).trans (ih2 nd2)

/-- `typeof data === 'object' && !(data instanceof Date)` for a non-null
comparison value. -/
def isObjectLike : JsVal → Bool
  | .vObj _ => true
  | .vArr _ => true
  | _ => false

/-- **C6**: operator-set resolution emits one fragment per present
operator in the spec's fixed canonical order `$like, $eq, $gt, $gte, $lt,
$lte, $in, $is, $isNot` (the source's sequential checks equal the
spec-side canonical fold); a single-entry where mapping renders those
fragments conjoined with `' AND '`; and the output is identical for any
two duplicate-free operator mappings that are permutations of each other
(input order is irrelevant, only the operator/operand pairs matter). -/
theorem operator_canonical_order :
    (∀ (ef : String) (data : JsVal),
      opFrags ef data
        = if opFragsSpec ef data = [] then .error opsErrMsg
          else .ok (opFragsSpec ef data))
    ∧ (∀ (f : String) (fs2 : JsFields) (j : Bool),
      f ≠ "$or" → f ≠ "$and" →
      JsFields.lookup "$field" fs2 = none →
      opFragsList (escapeId f) (.vObj fs2) ≠ [] →
      getWhere (some (.vObj (.fcons f (.vObj fs2) .fnil))) false j
        = .ok (some (joinStr " AND " (opFragsSpec (escapeId f) (.vObj fs2)))))
    ∧ (∀ (ef : String) (l1 l2 : List (String × JsVal)),
      (l1.map Prod.fst).Nodup → l1.Perm l2 →
      opFrags ef (.vObj (jsFieldsOfList l1))
        = opFrags ef (.vObj (jsFieldsOfList l2))) := by
  refine ⟨?_, ?_, ?_⟩
  · intro ef data
    rw [opFrags, opFragsList_eq_spec]
  · intro f fs2 j h1 h2 h3 h4
    rw [opFragsList_eq_spec] at h4
    simp [getWhere, getWhereFuel, jsSize, jsFieldsSize, JsFields.lookup, h1,
      h2, whereFields, fieldFrags, propOf, h3, opFrags, h4,
      opFragsList_eq_spec]
    rfl
  · intro ef l1 l2 nd p
    have hprop : ∀ tag, propOf (.vObj (jsFieldsOfList l1)) tag
        = propOf (.vObj (jsFieldsOfList l2)) tag := by
      intro tag
      simp only [propOf, lookup_ofList]
      exact perm_lookupL tag p nd
    simp only [opFrags, opFragsList, hprop]

theorem operator_canonical_order_witness :
    opFrags "`f`" (.vObj (.fcons "$gt" (.vInt 3) .fnil))
      = (if opFragsSpec "`f`" (.vObj (.fcons "$gt" (.vInt 3) .fnil)) = []
          then .error opsErrMsg
          else .ok (opFragsSpec "`f`" (.vObj (.fcons "$gt" (.vInt 3) .fnil))))
    ∧ getWhere (some (.vObj (.fcons "field"
        (.vObj (.fcons "$gt" (.vInt 3) (.fcons "$like" (.vStr "x") .fnil)))
        .fnil))) false false
      = .ok (some (joinStr " AND " (opFragsSpec (escapeId "field")
          (.vObj (.fcons "$gt" (.vInt 3) (.fcons "$like" (.vStr "x") .fnil))))))
    ∧ opFrags "`f`" (.vObj (jsFieldsOfList
        [("$gt", .vInt 3), ("$like", .vStr "x")]))
      = opFrags "`f`" (.vObj (jsFieldsOfList
        [("$like", .vStr "x"), ("$gt", .vInt 3)])) :=
  ⟨operator_canonical_order.1 "`f`" (.vObj (.fcons "$gt" (.vInt 3) .fnil)),
    operator_canonical_order.2.1 "field"
      (.fcons "$gt" (.vInt 3) (.fcons "$like" (.vStr "x") .fnil)) false
      (by decide) (by decide) (by decide) (by decide),
    operator_canonical_order.2.2 "`f`"
      [("$gt", .vInt 3), ("$like", .vStr "x")]
      [("$like", .vStr "x"), ("$gt", .vInt 3)]
      (by decide) (by decide)⟩

/-- **C7**: a where-mapping entry whose comparison is an object (not
`null`, not a `Date`, not a `$field` directive) containing none of the
nine recognized operator tags — arrays included, the empty object
included — always fails compilation with the validation error, and that
error message names exactly the accepted operator set. -/
theorem operator_exhaustion :
    (∀ (f : String) (data : JsVal) (j : Bool),
      isObjectLike data = true →
      f ≠ "$or" → f ≠ "$and" →
      propOf data "$field" = none →
      (∀ tag ∈ canonicalOps, propOf data tag = none) →
      getWhere (some (.vObj (.fcons f data .fnil))) false j
        = .error opsErrMsg)
    ∧ opsErrMsg
        = "Where object has not contains any of "
          ++ String.intercalate "," canonicalOps := by
  constructor
  · intro f data j hobj h1 h2 h3 h5
    have hlike := h5 "$like" (by simp [canonicalOps])
    have heq := h5 "$eq" (by simp [canonicalOps])
    have hgt := h5 "$gt" (by simp [canonicalOps])
    have hgte := h5 "$gte" (by simp [canonicalOps])
    have hlt := h5 "$lt" (by simp [canonicalOps])
    have hlte := h5 "$lte" (by simp [canonicalOps])
    have hin := h5 "$in" (by simp [canonicalOps])
    have his := h5 "$is" (by simp [canonicalOps])
    have hisnot := h5 "$isNot" (by simp [canonicalOps])
    have hfl : opFragsList (escapeId f) data = [] := by
      simp [opFragsList, hlike, heq, hgt, hgte, hlt, hlte, hin, his, hisnot]
    cases data with
    | vObj fs2 =>
      simp only [propOf] at h3
      simp [getWhere, getWhereFuel, jsSize, jsFieldsSize, JsFields.lookup,
        h1, h2, whereFields, fieldFrags, propOf, h3, opFrags, hfl]
      rfl
    | vArr xs =>
      simp [getWhere, getWhereFuel, jsSize, jsFieldsSize, JsFields.lookup,
        h1, h2, whereFields, fieldFrags, propOf, h3, opFrags, hfl]
      rfl
    | vNull => simp [isObjectLike] at hobj
    | vInt n => simp [isObjectLike] at hobj
    | vStr s => simp [isObjectLike] at hobj
    | vDate t => simp [isObjectLike] at hobj
  · rfl

theorem operator_exhaustion_witness :
    getWhere (some (.vObj (.fcons "field"
        (.vObj (.fcons "$bogus" (.vInt 1) .fnil)) .fnil))) false false
      = .error opsErrMsg
    ∧ getWhere (some (.vObj (.fcons "field" (.vObj .fnil) .fnil))) false false
      = .error opsErrMsg :=
  ⟨operator_exhaustion.1 "field" (.vObj (.fcons "$bogus" (.vInt 1) .fnil))
      false (by decide) (by decide) (by decide) (by decide)
      (by intro tag ht; fin_cases ht <;> decide),
    operator_exhaustion.1 "field" (.vObj .fnil) false (by decide) (by decide)
      (by decide) (by decide) (by intro tag ht; fin_cases ht <;> decide)⟩

/-! ## Claim C2 (amended): truthiness-based offset/limit coupling -/

theorem joinStr_append_two (xs : List String) (a b : String) :
    ∃ p, joinStr " " (xs ++ [a, b]) = p ++ (a ++ " " ++ b) := by
  induction xs with
  | nil => exact ⟨"", by simp [joinStr]⟩
  | cons x rest ih =>
    obtain ⟨p, hp⟩ := ih
    cases rest with
    | nil =>
      refine ⟨x ++ " ", ?_⟩
      simp [joinStr, String.append_assoc]
    | cons y ys =>
      refine ⟨x ++ " " ++ p, ?_⟩
      simp only [List.cons_append, List.append_eq, joinStr] at hp ⊢
      rw [hp]
      simp [String.append_assoc]

/-- A successful compilation with a truthy limit always ends in the LIMIT
clause parts pushed by the source. -/
theorem selectCore_ok_shape
    (table fields join whereV group order limit offset distinct : Option JsVal)
    (parts : List String)
    (hlim : optTruthy limit = true)
    (h : selectCore table fields join whereV group order limit offset distinct
      = .ok parts) :
    ∃ base, parts = base ++ ["LIMIT",
      if optTruthy offset then optValStr offset ++ "," ++ optValStr limit
      else optValStr limit] := by
  cases table with
  | none => exact absurd h (by simp [selectCore])
  | some tv =>
    simp only [selectCore] at h
    by_cases h1 : jsTruthy tv = false
    · rw [if_pos h1] at h; cases h
    · rw [if_neg h1] at h
      by_cases h2 : (nonNull offset && !isNumOpt offset) = true
      · rw [if_pos h2] at h; cases h
      · rw [if_neg h2] at h
        by_cases h3 : (nonNull limit && !isNumOpt limit) = true
        · rw [if_pos h3] at h; cases h
        · rw [if_neg h3] at h
          cases hf : getFields fields with
          | error e => rw [hf] at h; cases h
          | ok sqlFields =>
            rw [hf] at h
            cases hw : getWhere whereV false false with
            | error e => rw [hw] at h; cases h
            | ok sqlWhere =>
              rw [hw] at h
              cases hg : optCompile group getGroup with
              | error e => rw [hg] at h; cases h
              | ok sqlGroup =>
                rw [hg] at h
                cases ho : optCompile order (fun v => .ok (getOrder v)) with
                | error e => rw [ho] at h; cases h
                | ok sqlOrder =>
                  rw [ho] at h
                  cases hj : optCompile join getJoins with
                  | error e => rw [hj] at h; cases h
                  | ok sqlJoin =>
                    rw [hj] at h
                    replace h : (if optTruthy limit then
                        Except.ok ((basePartsOf tv (optTruthy distinct)
                          sqlFields sqlJoin sqlWhere sqlGroup sqlOrder)
                          ++ ["LIMIT", if optTruthy offset then
                              optValStr offset ++ "," ++ optValStr limit
                            else optValStr limit])
                      else if optTruthy offset then
                        Except.error "Can't set offset without limit"
                      else Except.ok (basePartsOf tv (optTruthy distinct)
                        sqlFields sqlJoin sqlWhere sqlGroup sqlOrder))
                      = Except.ok parts := h
                    rw [hlim] at h
                    simp only [if_true] at h
                    cases h
                    exact ⟨_, rfl⟩

/-- **C2 (amended)**: the LIMIT handling is truthiness-based, not
presence-based.  (1) A truthy offset with a falsy limit (absent, `null`,
or `0`) always fails compilation; (2) a nonzero numeric limit with a
falsy offset yields SQL ending in `LIMIT <n>`; (3) a nonzero numeric
limit with a nonzero numeric offset yields SQL ending in
`LIMIT <offset>,<count>`. -/
theorem select_offset_limit_coupling :
    (∀ table fields join whereV group order limit offset distinct :
        Option JsVal,
      optTruthy offset = true → optTruthy limit = false →
      ∃ msg, selectSql table fields join whereV group order limit offset
        distinct = .error msg)
    ∧ (∀ (table fields join whereV group order offset distinct :
        Option JsVal) (n : Int) (s : String),
      n ≠ 0 → optTruthy offset = false →
      selectSql table fields join whereV group order (some (.vInt n))
        offset distinct = .ok s →
      ∃ p, s = p ++ ("LIMIT " ++ intStr n))
    ∧ (∀ (table fields join whereV group order distinct : Option JsVal)
        (n m : Int) (s : String),
      n ≠ 0 → m ≠ 0 →
      selectSql table fields join whereV group order (some (.vInt n))
        (some (.vInt m)) distinct = .ok s →
      ∃ p, s = p ++ ("LIMIT " ++ (intStr m ++ "," ++ intStr n))) := by
  refine ⟨?_, ?_, ?_⟩
  · intro table fields join whereV group order limit offset distinct hoff hlim
    cases table with
    | none => exact ⟨tableMissingMsg, rfl⟩
    | some tv =>
      simp only [selectSql, selectCore]
      by_cases h1 : jsTruthy tv = false
      · rw [if_pos h1]; exact ⟨_, rfl⟩
      · rw [if_neg h1]
        by_cases h2 : (nonNull offset && !isNumOpt offset) = true
        · rw [if_pos h2]; exact ⟨_, rfl⟩
        · rw [if_neg h2]
          by_cases h3 : (nonNull limit && !isNumOpt limit) = true
          · rw [if_pos h3]; exact ⟨_, rfl⟩
          · rw [if_neg h3]
            cases hf : getFields fields with
            | error e => exact ⟨e, rfl⟩
            | ok sqlFields =>
              cases hw : getWhere whereV false false with
              | error e => exact ⟨e, rfl⟩
              | ok sqlWhere =>
                cases hg : optCompile group getGroup with
                | error e => exact ⟨e, rfl⟩
                | ok sqlGroup =>
                  cases ho : optCompile order (fun v => .ok (getOrder v)) with
                  | error e => exact ⟨e, rfl⟩
                  | ok sqlOrder =>
                    cases hj : optCompile join getJoins with
                    | error e => exact ⟨e, rfl⟩
                    | ok sqlJoin =>
                      refine ⟨"Can't set offset without limit", ?_⟩
                      show Except.map _ (if optTruthy limit then _ else
                        if optTruthy offset then
                          Except.error "Can't set offset without limit"
                        else _) = _
                      rw [hlim, hoff]
                      simp only [Bool.false_eq_true, if_false, if_true]
                      rfl
  · intro table fields join whereV group order offset distinct n s hn hoff h
    have hlim : optTruthy (some (JsVal.vInt n)) = true := by
      simp [optTruthy, jsTruthy, hn]
    cases hc : selectCore table fields join whereV group order
        (some (.vInt n)) offset distinct with
    | error e => rw [selectSql, hc] at h; cases h
    | ok parts =>
      rw [selectSql, hc] at h
      injection h with h'
      obtain ⟨base, hb⟩ :=
        selectCore_ok_shape _ _ _ _ _ _ _ _ _ parts hlim hc
      rw [hoff] at hb
      simp only [Bool.false_eq_true, if_false] at hb
      obtain ⟨p, hp⟩ :=
        joinStr_append_two base "LIMIT" (optValStr (some (.vInt n)))
      refine ⟨p, ?_⟩
      rw [← h', hb]
      exact hp.trans (by rfl)
  · intro table fields join whereV group order distinct n m s hn hm h
    have hlim : optTruthy (some (JsVal.vInt n)) = true := by
      simp [optTruthy, jsTruthy, hn]
    have hoff : optTruthy (some (JsVal.vInt m)) = true := by
      simp [optTruthy, jsTruthy, hm]
    cases hc : selectCore table fields join whereV group order
        (some (.vInt n)) (some (.vInt m)) distinct with
    | error e => rw [selectSql, hc] at h; cases h
    | ok parts =>
      rw [selectSql, hc] at h
      injection h with h'
      obtain ⟨base, hb⟩ :=
        selectCore_ok_shape _ _ _ _ _ _ _ _ _ parts hlim hc
      rw [hoff] at hb
      simp only [if_true] at hb
      obtain ⟨p, hp⟩ := joinStr_append_two base "LIMIT"
        (optValStr (some (.vInt m)) ++ "," ++ optValStr (some (.vInt n)))
      refine ⟨p, ?_⟩
      rw [← h', hb]
      exact hp.trans (by rfl)

theorem select_offset_limit_coupling_witness :
    (∃ msg, selectSql (some (.vStr "t")) none none none none none none
      (some (.vInt 3)) none = .error msg)
    ∧ (∃ p, "SELECT * FROM `t` LIMIT 2" = p ++ ("LIMIT " ++ intStr 2))
    ∧ (∃ p, "SELECT * FROM `t` LIMIT 3,2"
        = p ++ ("LIMIT " ++ (intStr 3 ++ "," ++ intStr 2))) :=
  ⟨select_offset_limit_coupling.1 (some (.vStr "t")) none none none none
      none none (some (.vInt 3)) none (by decide) (by decide),
    select_offset_limit_coupling.2.1 (some (.vStr "t")) none none none none
      none none none 2 _ (by decide) (by decide) (by rfl),
    select_offset_limit_coupling.2.2 (some (.vStr "t")) none none none none
      none none 2 3 _ (by decide) (by decide) (by rfl)⟩

/-! ## Claim C8: combinator nesting depth = parenthesis depth

Parenthesis counting over rendered SQL text: `pnet` is the net count of
`'('` minus `')'`, `peak` the maximum over all prefixes (the nesting
depth of a balanced string). -/

def pdelta (c : Char) : Int :=
  if c = '(' then 1 else if c = ')' then -1 else 0

def pnet : List Char → Int
  | [] => 0
  | c :: cs => pdelta c + pnet cs

def peak : List Char → Int
  | [] => 0
  | c :: cs => max (pdelta c + peak cs) 0

/-- Maximum parenthesis nesting depth of a (balanced) string. -/
def parenDepth (s : String) : Int := peak s.data

/-- Maximum of the peaks of a list of rendered operands. -/
def peaksMax (strs : List String) : Int :=
  strs.foldr (fun x acc => max (peak x.data) acc) 0

theorem pnet_append (a b : List Char) : pnet (a ++ b) = pnet a + pnet b := by
  induction a with
  | nil => simp [pnet]
  | cons c cs ih => simp [pnet, ih]; omega

theorem peak_nonneg (l : List Char) : 0 ≤ peak l := by
  induction l with
  | nil => simp [peak]
  | cons c cs ih => simp [peak]

theorem peak_append (a b : List Char) :
    peak (a ++ b) = max (peak a) (pnet a + peak b) := by
  induction a with
  | nil =>
    simp [peak, pnet]
    have := peak_nonneg b
    omega
  | cons c cs ih =>
    simp only [List.cons_append, List.append_eq, peak, pnet, ih]
    omega

theorem pfree_net (l : List Char) (h : ∀ c ∈ l, pdelta c = 0) :
    pnet l = 0 ∧ peak l = 0 := by
  induction l with
  | nil => simp [pnet, peak]
  | cons c cs ih =>
    have hc := h c (by simp)
    have ih' := ih (fun d hd => h d (by simp [hd]))
    simp [pnet, peak, hc, ih'.1, ih'.2]

/-- Every character of a separator-join comes from the separator or one
of the parts. -/
theorem joinStr_mem (sep : String) :
    ∀ (xs : List String) (c : Char), c ∈ (joinStr sep xs).data →
      c ∈ sep.data ∨ ∃ x ∈ xs, c ∈ x.data
  | [], c, hc => by simp [joinStr] at hc
  | [x], c, hc => by
    simp only [joinStr] at hc
    exact Or.inr ⟨x, by simp, hc⟩
  | x :: y :: ys, c, hc => by
    simp only [joinStr, String.data_append, List.mem_append] at hc
    rcases hc with (hc | hc) | hc
    · exact Or.inr ⟨x, by simp, hc⟩
    · exact Or.inl hc
    · rcases joinStr_mem sep (y :: ys) c hc with h | ⟨z, hz, hcz⟩
      · exact Or.inl h
      · exact Or.inr ⟨z, by simp at hz ⊢; tauto, hcz⟩

/-- Net and peak of a join of balanced parts over a parenthesis-free
separator: the net is zero and the peak is the maximum part peak. -/
theorem joinStr_net_peak (sep : String)
    (hsep : ∀ c ∈ sep.data, pdelta c = 0) :
    ∀ strs : List String, (∀ x ∈ strs, pnet x.data = 0) →
      pnet (joinStr sep strs).data = 0
      ∧ peak (joinStr sep strs).data = peaksMax strs
  | [], _ => by simp [joinStr, peaksMax, pnet, peak]
  | [x], hb => by
    have hx := hb x (by simp)
    have h0 := peak_nonneg x.data
    simp [joinStr, peaksMax]
    omega
  | x :: y :: ys, hb => by
    have hx := hb x (by simp)
    have hsep0 := pfree_net sep.data hsep
    have ih := joinStr_net_peak sep hsep (y :: ys)
      (fun z hz => hb z (by simp at hz ⊢; tauto))
    constructor
    · simp only [joinStr, String.data_append, pnet_append, hx, hsep0.1, ih.1]
      omega
    · simp only [joinStr, String.data_append, peak_append, pnet_append,
        hx, hsep0.1, hsep0.2, ih.1, ih.2]
      have h0 := peak_nonneg x.data
      have h1 := peak_nonneg sep.data
      simp [peaksMax]
      omega

theorem doubleBackticks_mem :
    ∀ (l : List Char) (c : Char), c ∈ doubleBackticks l → c ∈ l ∨ c = '`'
  | [], c, hc => by simp [doubleBackticks] at hc
  | d :: ds, c, hc => by
    simp only [doubleBackticks] at hc
    by_cases hd : d = '`'
    · rw [if_pos hd] at hc
      simp only [List.mem_cons] at hc
      rcases hc with h | h | h
      · exact Or.inr h
      · exact Or.inr h
      · rcases doubleBackticks_mem ds c h with h' | h'
        · exact Or.inl (by simp [h'])
        · exact Or.inr h'
    · rw [if_neg hd] at hc
      simp only [List.mem_cons] at hc
      rcases hc with h | h
      · exact Or.inl (by simp [h])
      · rcases doubleBackticks_mem ds c h with h' | h'
        · exact Or.inl (by simp [h'])
        · exact Or.inr h'

theorem splitDotsAux_mem :
    ∀ (l acc : List Char) (seg : List Char), seg ∈ splitDotsAux l acc →
      ∀ c ∈ seg, c ∈ l ∨ c ∈ acc
  | [], acc, seg, hs, c, hc => by
    simp [splitDotsAux] at hs
    subst hs
    simp at hc
    exact Or.inr hc
  | d :: ds, acc, seg, hs, c, hc => by
    simp only [splitDotsAux] at hs
    by_cases hd : d = '.'
    · rw [if_pos hd] at hs
      simp at hs
      rcases hs with h | h
      · subst h
        simp at hc
        exact Or.inr hc
      · rcases splitDotsAux_mem ds [] seg h c hc with h' | h'
        · exact Or.inl (by simp [h'])
        · simp at h'
    · rw [if_neg hd] at hs
      rcases splitDotsAux_mem ds (d :: acc) seg hs c hc with h' | h'
      · exact Or.inl (by simp [h'])
      · simp at h'
        rcases h' with h' | h'
        · exact Or.inl (by simp [h'])
        · exact Or.inr h'

/-- Identifier escaping introduces only backticks and dots: it preserves
parenthesis-freeness. -/
theorem escapeId_pfree (s : String) (h : ∀ c ∈ s.data, pdelta c = 0) :
    ∀ c ∈ (escapeId s).data, pdelta c = 0 := by
  intro c hc
  rcases joinStr_mem "." _ c hc with hsep | ⟨x, hx, hcx⟩
  · simp at hsep
    simp [hsep, pdelta]
  · simp only [List.mem_map] at hx
    obtain ⟨seg, hseg, hfx⟩ := hx
    rw [← hfx] at hcx
    simp only [String.data_append] at hcx
    simp at hcx
    rcases hcx with h' | h' | h'
    · simp [h', pdelta]
    · have : c ∈ doubleBackticks seg := h'
      rcases doubleBackticks_mem seg c this with h'' | h''
      · rcases splitDotsAux_mem s.data [] seg hseg c h'' with h3 | h3
        · exact h c h3
        · simp at h3
      · simp [h'', pdelta]
    · simp [h', pdelta]

theorem digit_pdelta (d : Nat) (h : d < 10) : pdelta (digitCh d) = 0 := by
  interval_cases d <;> decide

theorem natCharsAux_pfree :
    ∀ (fuel n : Nat), ∀ c ∈ natCharsAux fuel n, pdelta c = 0 := by
  intro fuel
  induction fuel with
  | zero => intro n c hc; simp [natCharsAux] at hc
  | succ f ih =>
    intro n c hc
    simp only [natCharsAux] at hc
    by_cases hn : n < 10
    · rw [if_pos hn] at hc
      simp at hc
      rw [hc]
      exact digit_pdelta n hn
    · rw [if_neg hn] at hc
      simp at hc
      rcases hc with h | h
      · exact ih _ c h
      · rw [h]
        exact digit_pdelta _ (Nat.mod_lt _ (by omega))

/-- Integer rendering is parenthesis-free. -/
theorem intStr_pfree (n : Int) : ∀ c ∈ (intStr n).data, pdelta c = 0 := by
  intro c hc
  cases n with
  | ofNat m =>
    exact natCharsAux_pfree _ _ c hc
  | negSucc m =>
    simp only [intStr, intChars, List.mem_cons] at hc
    rcases hc with h | h
    · rw [h]; decide
    · exact natCharsAux_pfree _ _ c h

/-! ### The combinator grammar of the claim

`CombSpec` is the sub-language of where descriptors built from nested
`$or`/`$and` combinators over field maps of integer equalities; `depth`
is its combinator nesting depth.  Well-formedness only asks that leaf
field names are not themselves combinator tags and contain no parenthesis
characters (otherwise the rendered text would contain parentheses that do
not come from combinators). -/

mutual

inductive CombSpec where
  | leaf (fields : List (String × Int))
  | comb (isOr : Bool) (ops : CombList)

inductive CombList where
  | nil
  | cons (head : CombSpec) (tail : CombList)

end

def fieldsToJs : List (String × Int) → JsFields
  | [] => .fnil
  | (k, n) :: rest => .fcons k (.vInt n) (fieldsToJs rest)

mutual

def CombSpec.toVal : CombSpec → JsVal
  | .leaf fields => .vObj (fieldsToJs fields)
  | .comb isOr ops =>
    .vObj (.fcons (if isOr then "$or" else "$and")
      (.vArr (combListToJs ops)) .fnil)

def combListToJs : CombList → JsList
  | .nil => .nil
  | .cons s rest => .cons s.toVal (combListToJs rest)

end

mutual

def CombSpec.depth : CombSpec → Nat
  | .leaf _ => 0
  | .comb _ ops => combListDepth ops + 1

def combListDepth : CombList → Nat
  | .nil => 0
  | .cons s rest => max s.depth (combListDepth rest)

end

def goodNameB (s : String) : Bool :=
  s != "$or" && s != "$and" && s.data.all (fun c => c != '(' && c != ')')

mutual

def CombSpec.wf : CombSpec → Bool
  | .leaf fields => fields.all (fun p => goodNameB p.1)
  | .comb _ ops => combListWf ops

def combListWf : CombList → Bool
  | .nil => true
  | .cons s rest => s.wf && combListWf rest

end

theorem fieldsToJs_lookup_none (tag : String) :
    ∀ fields : List (String × Int),
      (∀ p ∈ fields, p.1 ≠ tag) →
      JsFields.lookup tag (fieldsToJs fields) = none
  | [], _ => rfl
  | (k, n) :: rest, h => by
    have hk : k ≠ tag := h (k, n) (by simp)
    simp only [fieldsToJs, JsFields.lookup, if_neg hk]
    exact fieldsToJs_lookup_none tag rest (fun p hp => h p (by simp [hp]))

theorem whereFields_leaf :
    ∀ fields : List (String × Int),
      whereFields (fieldsToJs fields) false
        = .ok (fields.map (fun p => escapeId p.1 ++ " = " ++ intStr p.2))
  | [] => rfl
  | (k, n) :: rest => by
    simp only [fieldsToJs, whereFields, fieldFrags, List.map_cons]
    rw [whereFields_leaf rest]
    rfl

/-- A leaf of the combinator grammar renders as the `' AND '`-join of its
integer equalities. -/
theorem getWhere_leaf (fields : List (String × Int)) (r : Bool)
    (hor : ∀ p ∈ fields, p.1 ≠ "$or") (hand : ∀ p ∈ fields, p.1 ≠ "$and") :
    getWhere (some (.vObj (fieldsToJs fields))) r false
      = .ok (some (joinStr " AND "
          (fields.map (fun p => escapeId p.1 ++ " = " ++ intStr p.2)))) := by
  have h1 := fieldsToJs_lookup_none "$or" fields hor
  have h2 := fieldsToJs_lookup_none "$and" fields hand
  simp only [getWhere, jsSize]
  simp only [getWhereFuel, h1, h2, whereFields_leaf fields]
  rfl

theorem goodNameB_spec (k : String) (h : goodNameB k = true) :
    k ≠ "$or" ∧ k ≠ "$and" ∧ ∀ c ∈ k.data, pdelta c = 0 := by
  simp only [goodNameB, Bool.and_eq_true, bne_iff_ne, List.all_eq_true] at h
  obtain ⟨⟨h1, h2⟩, h3⟩ := h
  refine ⟨h1, h2, fun c hc => ?_⟩
  have h4 := h3 c hc
  simp only [Bool.and_eq_true, bne_iff_ne] at h4
  simp [pdelta, h4.1, h4.2]

theorem leaf_part_pfree (k : String) (n : Int)
    (hk : ∀ c ∈ k.data, pdelta c = 0) :
    ∀ c ∈ (escapeId k ++ " = " ++ intStr n).data, pdelta c = 0 := by
  intro c hc
  simp only [String.data_append, List.mem_append] at hc
  have hmid : ∀ c ∈ (" = " : String).data, pdelta c = 0 := by decide
  rcases hc with (hc | hc) | hc
  · exact escapeId_pfree k hk c hc
  · exact hmid c hc
  · exact intStr_pfree n c hc

theorem peaksMax_zero :
    ∀ strs : List String, (∀ x ∈ strs, peak x.data = 0) → peaksMax strs = 0
  | [], _ => rfl
  | x :: xs, h => by
    have hx := h x (by simp)
    have hxs := peaksMax_zero xs (fun y hy => h y (by simp [hy]))
    simp only [peaksMax, List.foldr_cons] at hxs ⊢
    rw [hx, hxs]
    simp

theorem peaksMax_nonneg : ∀ strs : List String, 0 ≤ peaksMax strs
  | [] => le_refl 0
  | x :: xs => by
    have h1 := peak_nonneg x.data
    have h2 := peaksMax_nonneg xs
    simp only [peaksMax, List.foldr_cons] at h2 ⊢
    omega

mutual

/-- Every well-formed combinator spec compiles successfully to a balanced
string whose parenthesis peak is its combinator nesting depth. -/
theorem combSpec_paren (s : CombSpec) (hw : s.wf = true) :
    ∃ str, getWhere (some s.toVal) true false = .ok (some str)
      ∧ pnet str.data = 0 ∧ peak str.data = (s.depth : Int) := by
  cases s with
  | leaf fields =>
    have hall : ∀ p ∈ fields, goodNameB p.1 = true := by
      simp only [CombSpec.wf, List.all_eq_true] at hw
      exact hw
    have hnames : ∀ p ∈ fields, ∀ c ∈ p.1.data, pdelta c = 0 :=
      fun p hp => (goodNameB_spec p.1 (hall p hp)).2.2
    have hparts : ∀ x ∈ fields.map
        (fun p => escapeId p.1 ++ " = " ++ intStr p.2),
        ∀ c ∈ x.data, pdelta c = 0 := by
      intro x hx
      simp only [List.mem_map] at hx
      obtain ⟨p, hp, hpx⟩ := hx
      rw [← hpx]
      exact leaf_part_pfree p.1 p.2 (hnames p hp)
    have hAND : ∀ c ∈ (" AND " : String).data, pdelta c = 0 := by decide
    have hnets : ∀ x ∈ fields.map
        (fun p => escapeId p.1 ++ " = " ++ intStr p.2), pnet x.data = 0 :=
      fun x hx => (pfree_net x.data (hparts x hx)).1
    have hjoin := joinStr_net_peak " AND " hAND _ hnets
    refine ⟨_, getWhere_leaf fields true
      (fun p hp => (goodNameB_spec p.1 (hall p hp)).1)
      (fun p hp => (goodNameB_spec p.1 (hall p hp)).2.1), hjoin.1, ?_⟩
    rw [hjoin.2, peaksMax_zero _
      (fun x hx => (pfree_net x.data (hparts x hx)).2)]
    simp [CombSpec.depth]
  | comb isOr ops =>
    have hw' : combListWf ops = true := hw
    obtain ⟨strs, hrun, hballs, hpk⟩ := combList_paren ops hw'
    cases isOr with
    | true =>
      have hOR : ∀ c ∈ (" OR " : String).data, pdelta c = 0 := by decide
      have hjoin := joinStr_net_peak " OR " hOR strs hballs
      refine ⟨"(" ++ joinStr " OR " strs ++ ")", ?_, ?_, ?_⟩
      · simp [CombSpec.toVal, getWhere, getWhereFuel, jsSize, jsFieldsSize,
          JsFields.lookup]
        rw [getWhereListFuel_eq _ _ false (by omega), hrun]
        rfl
      · have h1 : pnet ("(" : String).data = 1 := by decide
        have h2 : pnet (")" : String).data = -1 := by decide
        simp only [String.data_append, pnet_append, h1, h2, hjoin.1]
        omega
      · have h1 : pnet ("(" : String).data = 1 := by decide
        have h2 : peak ("(" : String).data = 1 := by decide
        have h3 : peak (")" : String).data = 0 := by decide
        have h4 := peaksMax_nonneg strs
        simp only [String.data_append, peak_append, pnet_append, h1, h2, h3,
          hjoin.1, hjoin.2, hpk, CombSpec.depth]
        push_cast
        omega
    | false =>
      have hANDs : ∀ c ∈ (" AND " : String).data, pdelta c = 0 := by decide
      have hjoin := joinStr_net_peak " AND " hANDs strs hballs
      refine ⟨"(" ++ joinStr " AND " strs ++ ")", ?_, ?_, ?_⟩
      · simp [CombSpec.toVal, getWhere, getWhereFuel, jsSize, jsFieldsSize,
          JsFields.lookup]
        rw [getWhereListFuel_eq _ _ false (by omega), hrun]
        rfl
      · have h1 : pnet ("(" : String).data = 1 := by decide
        have h2 : pnet (")" : String).data = -1 := by decide
        simp only [String.data_append, pnet_append, h1, h2, hjoin.1]
        omega
      · have h1 : pnet ("(" : String).data = 1 := by decide
        have h2 : peak ("(" : String).data = 1 := by decide
        have h3 : peak (")" : String).data = 0 := by decide
        have h4 := peaksMax_nonneg strs
        simp only [String.data_append, peak_append, pnet_append, h1, h2, h3,
          hjoin.1, hjoin.2, hpk, CombSpec.depth]
        push_cast
        omega

/-- Operand lists compile elementwise; the maximum operand peak is the
maximum operand depth. -/
theorem combList_paren (l : CombList) (hw : combListWf l = true) :
    ∃ strs, getWhereListFuel (jsListSize (combListToJs l)) (combListToJs l)
        false = .ok strs
      ∧ (∀ x ∈ strs, pnet x.data = 0)
      ∧ peaksMax strs = (combListDepth l : Int) := by
  cases l with
  | nil =>
    exact ⟨[], rfl, by simp, by simp [peaksMax, combListDepth]⟩
  | cons s rest =>
    have hws : s.wf = true := by
      simp only [combListWf, Bool.and_eq_true] at hw
      exact hw.1
    have hwr : combListWf rest = true := by
      simp only [combListWf, Bool.and_eq_true] at hw
      exact hw.2
    obtain ⟨str, hs, hnet, hpkS⟩ := combSpec_paren s hws
    obtain ⟨strs, hrest, hballs, hpkR⟩ := combList_paren rest hwr
    have hp := jsListSize_pos (combListToJs rest)
    refine ⟨str :: strs, ?_, ?_, ?_⟩
    · simp only [combListToJs, jsListSize, getWhereListFuel]
      rw [getWhereFuel_eq _ _ true false (by omega), hs,
        getWhereListFuel_eq _ _ false (by omega), hrest]
      rfl
    · intro x hx
      rcases List.mem_cons.mp hx with h | h
      · rw [h]; exact hnet
      · exact hballs x h
    · simp only [peaksMax, List.foldr_cons] at hpkR ⊢
      rw [hpkS, hpkR, combListDepth]
      push_cast
      omega

end

/-- **C8**: every where descriptor built from nested `$or`/`$and`
combinators compiles each operand recursively, joins the results with the
combinator keyword, and wraps each group in exactly one pair of
parentheses, so the rendered expression is balanced and its parenthesis
nesting depth equals the combinator nesting depth; in particular the
claim's example `{$or:[{field1:1},{field1:2}]}` renders as
`` (`field1` = 1 OR `field1` = 2) ``.  (Well-formedness restricts leaf
field names to non-combinator names without parenthesis characters, so
that all parentheses in the output come from combinators.) -/
theorem combinator_paren_depth :
    (∀ s : CombSpec, s.wf = true →
      ∃ str, getWhere (some s.toVal) false false = .ok (some str)
        ∧ pnet str.data = 0 ∧ parenDepth str = (s.depth : Int))
    ∧ getWhere (some (.vObj (.fcons "$or" (.vArr
        (.cons (.vObj (.fcons "field1" (.vInt 1) .fnil))
        (.cons (.vObj (.fcons "field1" (.vInt 2) .fnil)) .nil))) .fnil)))
        false false
      = .ok (some "(`field1` = 1 OR `field1` = 2)") := by
  constructor
  · intro s hw
    obtain ⟨str, hs, hnet, hpk⟩ := combSpec_paren s hw
    refine ⟨str, ?_, hnet, hpk⟩
    rw [← hs]
    cases s <;> rfl
  · rfl

theorem combinator_paren_depth_witness :
    ∃ str, getWhere (some (CombSpec.comb true
        (.cons (.leaf [("field1", 1)]) (.cons (.leaf [("field1", 2)])
          .nil))).toVal) false false = .ok (some str)
      ∧ pnet str.data = 0
      ∧ parenDepth str = ((CombSpec.comb true
          (.cons (.leaf [("field1", 1)]) (.cons (.leaf [("field1", 2)])
            .nil))).depth : Int) :=
  combinator_paren_depth.1 _ (by decide)
